import Mathlib

/-!
Verification of the FPGA image-processor benchmark harness.

This file gives a shallow embedding of the two Python source files of the
repository (`python/benchmark.py` and `python/upload_image.py`) and proves
or refutes the specification claims about them.

Modelling conventions:
* Python floats are embedded as rationals (`ℚ`); all the arithmetic the
  claims are about is exact in this embedding.
* The wall clock (`time.perf_counter`) is an oracle `clock : ℕ → ℚ` giving
  the reading returned by the n-th call, and the benchmark harness threads
  an explicit `HarnessState` that counts clock calls and kernel
  invocations, mirroring the Python control flow statement by statement.
* Images are total functions `ℤ → ℤ → ℚ` together with their declared
  dimensions; `scipy.ndimage.convolve`'s default boundary mode `reflect`
  (index -1 reads row 0, index n reads row n-1) is embedded in `reflectIdx`.
* `numpy`'s float→uint8 cast truncates toward zero and wraps modulo 256;
  this is `toUint8` below, built from `ratTrunc` (truncation toward zero).
-/

namespace FpgaBench

/-! ## FPGASimulator (benchmark.py, lines 99-134) -/

namespace FPGASimulator

/-- Constant `CLOCK_FREQ_MHZ = 120.5` (benchmark.py line 113). -/
def CLOCK_FREQ_MHZ : ℚ := 120.5

/-- Constant `PIXELS_PER_FRAME = 640 * 480` (benchmark.py line 114). -/
def PIXELS_PER_FRAME : ℚ := 640 * 480

/-- Constant `PIPELINE_LATENCY = 1282` (benchmark.py line 115). -/
def PIPELINE_LATENCY : ℚ := 1282

/-- Function `estimate_processing_time_ms` (benchmark.py lines 117-134):
`total_cycles = pixels + latency`, `time_ms = total_cycles / (clock * 1000)`,
then `time_ms += 0.32`. A pure function of the constant parameters. -/
def estimate_processing_time_ms : ℚ :=
  let total_cycles := PIXELS_PER_FRAME + PIPELINE_LATENCY
  let time_ms := total_cycles / (CLOCK_FREQ_MHZ * 1000)
  time_ms + 0.32

end FPGASimulator

/-! ## Benchmark harness (benchmark.py, lines 28-34 and 137-256) -/

/-- The `BenchmarkResult` dataclass (benchmark.py lines 28-35). The
`image_size` field stores the numpy shape `(rows, cols)`. -/
structure BenchmarkResult where
  name : String
  cpu_time_ms : ℚ
  fpga_time_ms : ℚ
  speedup : ℚ
  image_size : ℕ × ℕ

/-- State threaded through the timing harness: how many `perf_counter`
calls have been made and how many times the kernel has been invoked. -/
structure HarnessState where
  clock_calls : ℕ
  kernel_calls : ℕ

/-- One call of `time.perf_counter()`: returns the next clock reading
from the oracle and advances the clock-call counter. -/
def perf_counter (clock : ℕ → ℚ) (s : HarnessState) : ℚ × HarnessState :=
  (clock s.clock_calls, ⟨s.clock_calls + 1, s.kernel_calls⟩)

/-- One invocation `operation(image)`; only its occurrence is observable
in the timing model, so the state just counts it. -/
def invoke_kernel (s : HarnessState) : HarnessState :=
  ⟨s.clock_calls, s.kernel_calls + 1⟩

/-- The timed loop of `run_cpu_benchmark` (benchmark.py lines 160-165):
`for _ in range(iterations): start = perf_counter(); operation(image);
end = perf_counter(); times.append((end - start) * 1000)`. -/
def timed_runs (clock : ℕ → ℚ) : ℕ → HarnessState → List ℚ × HarnessState
  | 0, s => ([], s)
  | Nat.succ n, s =>
      let p1 := perf_counter clock s
      let s1 := invoke_kernel p1.2
      let p2 := perf_counter clock s1
      let rest := timed_runs clock n p2.2
      ((p2.1 - p1.1) * 1000 :: rest.1, rest.2)

/-- Python `np.mean` on a list: sum divided by length. -/
def npMean (xs : List ℚ) : ℚ := xs.sum / (xs.length : ℚ)

/-- Method `run_cpu_benchmark` (benchmark.py lines 143-168): one untimed warm-up
invocation, then `iterations` timed runs, returning `np.mean(times)`
together with the final harness state. -/
def run_cpu_benchmark (clock : ℕ → ℚ) (iterations : ℕ) : ℚ × HarnessState :=
  let s0 : HarnessState := ⟨0, 0⟩
  let s1 := invoke_kernel s0
  let tr := timed_runs clock iterations s1
  (npMean tr.1, tr.2)

/-- Method `run_comparison` (benchmark.py lines 170-207): runs the CPU benchmark
with `iterations=10`, obtains the FPGA time from the simulator, computes
`speedup = cpu_time / fpga_time`, builds a `BenchmarkResult` and appends
it to `self.results`. Returns the new result list and the result.
The source performs no validation of the image dimensions. -/
def run_comparison (clock : ℕ → ℚ) (results : List BenchmarkResult)
    (operation_name : String) (image_size : ℕ × ℕ) :
    List BenchmarkResult × BenchmarkResult :=
  let cpu_time := (run_cpu_benchmark clock 10).1
  let fpga_time := FPGASimulator.estimate_processing_time_ms
  let speedup := cpu_time / fpga_time
  let result : BenchmarkResult :=
    ⟨operation_name, cpu_time, fpga_time, speedup, image_size⟩
  (results ++ [result], result)

/-- The data formatted into one table row of the report
(benchmark.py lines 230-232). -/
structure ReportRow where
  name : String
  cpu_time_ms : ℚ
  fpga_time_ms : ℚ
  speedup : ℚ

/-- Method `generate_report` (benchmark.py lines 209-256), restricted to the
result-dependent content: the loop `for result in self.results:
report.append(row)` accumulating one row per result, and the aggregate
`avg_speedup = np.mean([r.speedup for r in self.results])`. -/
def generate_report (results : List BenchmarkResult) : List ReportRow × ℚ :=
  (results.foldl
     (fun acc r => acc ++ [ReportRow.mk r.name r.cpu_time_ms r.fpga_time_ms r.speedup]) [],
   npMean (results.map (fun r => r.speedup)))

/-- A benchmark session (`main`, benchmark.py lines 284-289): running a
list of comparisons in order, each with its own clock oracle, appending
each result to the store. -/
def run_session (image_size : ℕ × ℕ) :
    List (String × (ℕ → ℚ)) → List BenchmarkResult → List BenchmarkResult
  | [], results => results
  | op :: rest, results =>
      run_session image_size rest (run_comparison op.2 results op.1 image_size).1

/-! ## ImageProcessorCPU (benchmark.py, lines 38-96) -/

/-- A 2-D grayscale image: declared dimensions plus a total pixel
function (row, column); only indices `0 ≤ r < height`, `0 ≤ c < width`
correspond to stored samples. -/
structure RasterImage where
  height : ℕ
  width : ℕ
  px : ℤ → ℤ → ℚ

/-- A 3×3 convolution weight matrix, row by row. -/
structure Kernel3 where
  k00 : ℚ
  k01 : ℚ
  k02 : ℚ
  k10 : ℚ
  k11 : ℚ
  k12 : ℚ
  k20 : ℚ
  k21 : ℚ
  k22 : ℚ

/-- Sobel `kernel_x = [[-1,0,1],[-2,0,2],[-1,0,1]]` (benchmark.py lines 56-58). -/
def kernel_x : Kernel3 := ⟨-1, 0, 1, -2, 0, 2, -1, 0, 1⟩

/-- Sobel `kernel_y = [[-1,-2,-1],[0,0,0],[1,2,1]]` (benchmark.py lines 60-62). -/
def kernel_y : Kernel3 := ⟨-1, -2, -1, 0, 0, 0, 1, 2, 1⟩

/-- Blur kernel `[[1,2,1],[2,4,2],[1,2,1]] / 16.0` (benchmark.py lines 88-90). -/
def blur_kernel : Kernel3 :=
  ⟨1/16, 2/16, 1/16, 2/16, 4/16, 2/16, 1/16, 2/16, 1/16⟩

/-- The `scipy.ndimage` default boundary mode `reflect` for an axis of
size `n` and a requested index `i` with `-n ≤ i < 2n`: index `-1` reads
sample `0`, index `n` reads sample `n-1` (half-sample symmetry). -/
def reflectIdx (n : ℕ) (i : ℤ) : ℤ :=
  if i < 0 then -i - 1
  else if (n : ℤ) ≤ i then 2 * n - 1 - i
  else i

/-- Read a pixel with `reflect` boundary extension on both axes. -/
def sample (img : RasterImage) (r c : ℤ) : ℚ :=
  img.px (reflectIdx img.height r) (reflectIdx img.width c)

/-- Function `scipy.ndimage.convolve(input, weights)` for a 3×3 weight matrix at
output position `(r, c)` with the default `origin=0` and `mode='reflect'`:
mathematical convolution, `C[r,c] = Σ W[a,b] · I[r+1-a, c+1-b]`. -/
def ndimage_convolve (w : Kernel3) (img : RasterImage) (r c : ℤ) : ℚ :=
  w.k00 * sample img (r + 1) (c + 1) + w.k01 * sample img (r + 1) c +
    w.k02 * sample img (r + 1) (c - 1) +
  w.k10 * sample img r (c + 1) + w.k11 * sample img r c +
    w.k12 * sample img r (c - 1) +
  w.k20 * sample img (r - 1) (c + 1) + w.k21 * sample img (r - 1) c +
    w.k22 * sample img (r - 1) (c - 1)

/-- Truncation toward zero, the rounding used by numpy's float→integer
`astype` casts. -/
def ratTrunc (x : ℚ) : ℤ := Int.tdiv x.num x.den

/-- Cast `astype(np.uint8)` on a float value: truncate toward zero, then wrap
modulo 256. -/
def toUint8 (x : ℚ) : ℤ := ratTrunc x % 256

/-- Python `np.clip(x, lo, hi) = min(max(x, lo), hi)`. -/
def np_clip (x lo hi : ℚ) : ℚ := min (max x lo) hi

/-- Kernel `sobel_edge_detection` (benchmark.py lines 41-74) at one output
pixel: convolve with both Sobel kernels, combine as `|gx| + |gy|`,
`np.clip(·, 0, 255)`, cast to uint8. -/
def sobel_edge_detection (img : RasterImage) (r c : ℤ) : ℤ :=
  let grad_x := ndimage_convolve kernel_x img r c
  let grad_y := ndimage_convolve kernel_y img r c
  let magnitude := |grad_x| + |grad_y|
  toUint8 (np_clip magnitude 0 255)

/-- Kernel `gaussian_blur` (benchmark.py lines 76-96) at one output pixel:
convolve with the normalized blur kernel, cast to uint8 with no clipping. -/
def gaussian_blur (img : RasterImage) (r c : ℤ) : ℤ :=
  toUint8 (ndimage_convolve blur_kernel img r c)

/-- The image's pixel data is valid uint8: every sample lies in [0, 255]. -/
def IsUint8Image (img : RasterImage) : Prop :=
  ∀ r c : ℤ, 0 ≤ img.px r c ∧ img.px r c ≤ 255

/-! ## FPGAImageUploader (upload_image.py, lines 32-149) -/

/-- A numpy array as received by the uploader: shape plus data. -/
structure NdArray where
  height : ℕ
  width : ℕ
  data : ℕ → ℕ → ℕ

/-- Constant `IMAGE_WIDTH = 640` (upload_image.py line 36). -/
def IMAGE_WIDTH : ℕ := 640

/-- Constant `IMAGE_HEIGHT = 480` (upload_image.py line 37). -/
def IMAGE_HEIGHT : ℕ := 480

/-- Python `image.flatten()`: row-major flattening of the array. -/
def flattenImage (img : NdArray) : List ℕ :=
  ((List.range img.height).map
    (fun r => (List.range img.width).map (fun c => img.data r c))).flatten

/-- Method `upload_image` (upload_image.py lines 105-149): raises
`ValueError("Image must be 640x480")` when `image.shape != (480, 640)`,
before anything is transferred; otherwise transmits the flattened pixels.
The result is the byte stream written to the serial port. -/
def upload_image (img : NdArray) : Except String (List ℕ) :=
  if (img.height, img.width) = (IMAGE_HEIGHT, IMAGE_WIDTH) then
    Except.ok (flattenImage img)
  else
    Except.error "Image must be 640x480"

/-! ## Helper lemmas -/

/-- For a nonnegative rational, truncation toward zero agrees with floor. -/
lemma ratTrunc_eq_floor (x : ℚ) (h : 0 ≤ x) : ratTrunc x = ⌊x⌋ := by
  unfold ratTrunc
  rw [Rat.floor_def]
  exact Int.tdiv_eq_ediv (Rat.num_nonneg.mpr h) (Int.natCast_nonneg x.den)

/-- On a value already in the uint8 range, the uint8 cast is plain
truncation: the modulo-256 wrap is the identity. -/
lemma toUint8_eq_ratTrunc (x : ℚ) (h0 : 0 ≤ x) (h255 : x ≤ 255) :
    toUint8 x = ratTrunc x := by
  unfold toUint8
  rw [ratTrunc_eq_floor x h0]
  have l0 : 0 ≤ ⌊x⌋ := Int.floor_nonneg.mpr h0
  have l1 : ⌊x⌋ ≤ 255 := by
    have h2 : ⌊x⌋ ≤ ⌊(255 : ℚ)⌋ := Int.floor_le_floor h255
    have h3 : ⌊(255 : ℚ)⌋ = 255 := by norm_num
    omega
  exact Int.emod_eq_of_lt l0 (by omega)

/-- The uint8 cast of a small natural number is that number. -/
lemma toUint8_natCast (V : ℕ) (hV : V ≤ 255) : toUint8 (V : ℚ) = (V : ℤ) := by
  rw [toUint8_eq_ratTrunc (V : ℚ) (by positivity) (by exact_mod_cast hV),
    ratTrunc_eq_floor (V : ℚ) (by positivity)]
  exact Int.floor_natCast V

/-- Exact description of the timed loop: the list of recorded durations
and the final counters, for any starting state. -/
lemma timed_runs_spec (clock : ℕ → ℚ) (n : ℕ) :
    ∀ s : HarnessState,
      (timed_runs clock n s).1 =
        (List.range n).map
          (fun i => (clock (s.clock_calls + 2 * i + 1) -
            clock (s.clock_calls + 2 * i)) * 1000) ∧
      (timed_runs clock n s).2.clock_calls = s.clock_calls + 2 * n ∧
      (timed_runs clock n s).2.kernel_calls = s.kernel_calls + n := by
  induction n with
  | zero => intro s; simp [timed_runs]
  | succ n ih =>
      intro s
      simp only [timed_runs, perf_counter, invoke_kernel]
      obtain ⟨h1, h2, h3⟩ := ih ⟨s.clock_calls + 1 + 1, s.kernel_calls + 1⟩
      dsimp only at h1 h2 h3
      have hfun :
          (fun i => (clock (s.clock_calls + 1 + 1 + 2 * i + 1) -
              clock (s.clock_calls + 1 + 1 + 2 * i)) * 1000) =
            ((fun i => (clock (s.clock_calls + 2 * i + 1) -
              clock (s.clock_calls + 2 * i)) * 1000) ∘ Nat.succ) := by
        funext i
        simp only [Function.comp_apply]
        have e1 : s.clock_calls + 1 + 1 + 2 * i + 1 = s.clock_calls + 2 * Nat.succ i + 1 := by
          omega
        have e2 : s.clock_calls + 1 + 1 + 2 * i = s.clock_calls + 2 * Nat.succ i := by
          omega
        rw [e1, e2]
      refine ⟨?_, by rw [h2]; omega, by rw [h3]; omega⟩
      rw [h1, hfun, List.range_succ_eq_map, List.map_cons, List.map_map]
      norm_num

/-- A session is the append-order list of the per-comparison results. -/
lemma run_session_eq (image_size : ℕ × ℕ) :
    ∀ (ops : List (String × (ℕ → ℚ))) (acc : List BenchmarkResult),
      run_session image_size ops acc =
        acc ++ ops.map (fun op => (run_comparison op.2 [] op.1 image_size).2) := by
  intro ops
  induction ops with
  | nil => intro acc; simp [run_session]
  | cons op rest ih =>
      intro acc
      rw [run_session, ih]
      simp [run_comparison]

/-- Folding row-append over a list is mapping the row constructor. -/
lemma foldl_append_rows (g : BenchmarkResult → ReportRow) :
    ∀ (l : List BenchmarkResult) (acc : List ReportRow),
      l.foldl (fun a r => a ++ [g r]) acc = acc ++ l.map g := by
  intro l
  induction l with
  | nil => intro acc; simp
  | cons r rest ih => intro acc; rw [List.foldl_cons, ih]; simp

/-- The uint8 cast of zero is zero. -/
lemma toUint8_zero : toUint8 0 = 0 := by
  have h := toUint8_natCast 0 (by norm_num)
  simpa using h

/-- For a query index within one step of the valid range, the reflected
index is in range (needs a nonempty axis). -/
lemma reflectIdx_mem (n : ℕ) (i : ℤ) (h1 : -1 ≤ i) (h2 : i ≤ (n : ℤ))
    (hn : 1 ≤ n) : 0 ≤ reflectIdx n i ∧ reflectIdx n i < (n : ℤ) := by
  unfold reflectIdx
  split_ifs <;> omega

/-- Two images of the same dimensions agreeing on all in-range pixels
give the same boundary-extended samples one step around the image. -/
lemma sample_congr (img₁ img₂ : RasterImage) (hh : img₁.height = img₂.height)
    (hw : img₁.width = img₂.width)
    (hpx : ∀ r c : ℤ, 0 ≤ r → r < (img₁.height : ℤ) → 0 ≤ c →
      c < (img₁.width : ℤ) → img₁.px r c = img₂.px r c)
    (r c : ℤ) (hr1 : -1 ≤ r) (hr2 : r ≤ (img₁.height : ℤ))
    (hc1 : -1 ≤ c) (hc2 : c ≤ (img₁.width : ℤ))
    (hhp : 1 ≤ img₁.height) (hwp : 1 ≤ img₁.width) :
    sample img₁ r c = sample img₂ r c := by
  unfold sample
  rw [← hh, ← hw]
  obtain ⟨a1, a2⟩ := reflectIdx_mem img₁.height r hr1 hr2 hhp
  obtain ⟨b1, b2⟩ := reflectIdx_mem img₁.width c hc1 hc2 hwp
  exact hpx _ _ a1 a2 b1 b2

/-- Convolution at an in-range output position depends only on the
in-range pixel data (out-of-range reads are reflected back in range). -/
lemma convolve_congr (w : Kernel3) (img₁ img₂ : RasterImage)
    (hh : img₁.height = img₂.height) (hw : img₁.width = img₂.width)
    (hpx : ∀ r c : ℤ, 0 ≤ r → r < (img₁.height : ℤ) → 0 ≤ c →
      c < (img₁.width : ℤ) → img₁.px r c = img₂.px r c)
    (r c : ℤ) (hr1 : 0 ≤ r) (hr2 : r < (img₁.height : ℤ))
    (hc1 : 0 ≤ c) (hc2 : c < (img₁.width : ℤ)) :
    ndimage_convolve w img₁ r c = ndimage_convolve w img₂ r c := by
  have hhp : 1 ≤ img₁.height := by omega
  have hwp : 1 ≤ img₁.width := by omega
  have H : ∀ r' c' : ℤ, -1 ≤ r' → r' ≤ (img₁.height : ℤ) → -1 ≤ c' →
      c' ≤ (img₁.width : ℤ) → sample img₁ r' c' = sample img₂ r' c' :=
    fun r' c' a b d e => sample_congr img₁ img₂ hh hw hpx r' c' a b d e hhp hwp
  unfold ndimage_convolve
  rw [H (r + 1) (c + 1) (by omega) (by omega) (by omega) (by omega),
    H (r + 1) c (by omega) (by omega) (by omega) (by omega),
    H (r + 1) (c - 1) (by omega) (by omega) (by omega) (by omega),
    H r (c + 1) (by omega) (by omega) (by omega) (by omega),
    H r c (by omega) (by omega) (by omega) (by omega),
    H r (c - 1) (by omega) (by omega) (by omega) (by omega),
    H (r - 1) (c + 1) (by omega) (by omega) (by omega) (by omega),
    H (r - 1) c (by omega) (by omega) (by omega) (by omega),
    H (r - 1) (c - 1) (by omega) (by omega) (by omega) (by omega)]

/-- The blur convolution written with its literal weights. -/
lemma blur_convolve_eq (img : RasterImage) (r c : ℤ) :
    ndimage_convolve blur_kernel img r c =
      (1 / 16) * sample img (r + 1) (c + 1) + (2 / 16) * sample img (r + 1) c +
        (1 / 16) * sample img (r + 1) (c - 1) +
      (2 / 16) * sample img r (c + 1) + (4 / 16) * sample img r c +
        (2 / 16) * sample img r (c - 1) +
      (1 / 16) * sample img (r - 1) (c + 1) + (2 / 16) * sample img (r - 1) c +
        (1 / 16) * sample img (r - 1) (c - 1) := rfl

/-! ## Claims -/

/-- C1 (amended): for the fixed hardware parameters (clock 120.5 MHz,
640·480 = 307200 pixels per frame, 1282 cycles pipeline latency, 0.32 ms
fixed overhead), the timing model returns exactly
`(307200 + 1282) / (120.5 · 1000) + 0.32` milliseconds — which is
approximately 2.8800 ms (strictly between 2.8800 and 2.8801), not the
claimed 2.8787 ms; being a constant, it is recomputed from the parameters
on every call and identical across calls. -/
theorem C1_timing_model_exact :
    FPGASimulator.estimate_processing_time_ms = (307200 + 1282) / (120.5 * 1000) + 0.32 ∧
    FPGASimulator.estimate_processing_time_ms = 308482 / 120500 + 32 / 100 ∧
    288 / 100 < FPGASimulator.estimate_processing_time_ms ∧
    FPGASimulator.estimate_processing_time_ms < 28801 / 10000 := by
  refine ⟨?_, ?_, ?_, ?_⟩ <;>
    norm_num [FPGASimulator.estimate_processing_time_ms,
      FPGASimulator.PIXELS_PER_FRAME, FPGASimulator.PIPELINE_LATENCY,
      FPGASimulator.CLOCK_FREQ_MHZ]

/-- C1 counterexample: the model's value is not approximately 2.8787 ms —
it exceeds 2.8787 by more than 0.0013 ms (the true value is ≈ 2.88002 ms,
matching the spec's other statement "≈ 2.88 ms"). -/
theorem C1_counterexample :
    FPGASimulator.estimate_processing_time_ms ≠ 28787 / 10000 ∧
    28787 / 10000 + 13 / 10000 < FPGASimulator.estimate_processing_time_ms := by
  constructor <;>
    norm_num [FPGASimulator.estimate_processing_time_ms,
      FPGASimulator.PIXELS_PER_FRAME, FPGASimulator.PIPELINE_LATENCY,
      FPGASimulator.CLOCK_FREQ_MHZ]

/-- C2: every `BenchmarkResult` constructed by a comparison run stores
`speedup = cpu_time_ms / fpga_time_ms` of its own stored fields, where the
stored `cpu_time_ms` is the value returned by the CPU benchmark (10
iterations) and the stored `fpga_time_ms` is the value returned by one
invocation of the hardware timing model. -/
theorem C2_speedup_consistency (clock : ℕ → ℚ) (results : List BenchmarkResult)
    (operation_name : String) (image_size : ℕ × ℕ) :
    ((run_comparison clock results operation_name image_size).2).speedup =
      ((run_comparison clock results operation_name image_size).2).cpu_time_ms /
        ((run_comparison clock results operation_name image_size).2).fpga_time_ms ∧
    ((run_comparison clock results operation_name image_size).2).cpu_time_ms =
      (run_cpu_benchmark clock 10).1 ∧
    ((run_comparison clock results operation_name image_size).2).fpga_time_ms =
      FPGASimulator.estimate_processing_time_ms :=
  ⟨rfl, rfl, rfl⟩

/-- C8: the accelerator time returned by the timing model is strictly
positive (the additive 0.32 ms overhead term makes it so), hence in every
comparison the speedup division is by a nonzero denominator and genuinely
inverts: `speedup · fpga_time_ms = cpu_time_ms`. -/
theorem C8_positive_accelerator_time :
    0 < FPGASimulator.estimate_processing_time_ms ∧
    ∀ (clock : ℕ → ℚ) (results : List BenchmarkResult)
      (operation_name : String) (image_size : ℕ × ℕ),
      ((run_comparison clock results operation_name image_size).2).fpga_time_ms ≠ 0 ∧
      ((run_comparison clock results operation_name image_size).2).speedup *
          ((run_comparison clock results operation_name image_size).2).fpga_time_ms =
        ((run_comparison clock results operation_name image_size).2).cpu_time_ms := by
  have hpos : 0 < FPGASimulator.estimate_processing_time_ms := by
    norm_num [FPGASimulator.estimate_processing_time_ms,
      FPGASimulator.PIXELS_PER_FRAME, FPGASimulator.PIPELINE_LATENCY,
      FPGASimulator.CLOCK_FREQ_MHZ]
  refine ⟨hpos, fun clock results operation_name image_size => ⟨ne_of_gt hpos, ?_⟩⟩
  exact div_mul_cancel₀ _ (ne_of_gt hpos)

/-- C3 counterexample: a comparison run on a 2×2 image — whose dimensions
differ from the declared 480×640 pixel count — does not fail at all: it
performs the full timing loop (with the clock oracle `fun i => i`, the
reported CPU mean is 1000 ms) and appends a `BenchmarkResult` carrying the
mismatched size to the store. No `ValidationError` exists on this path. -/
theorem C3_counterexample :
    ((run_comparison (fun i => (i : ℚ)) [] "Sobel Edge Detection" (2, 2)).1).length = 1 ∧
    ((run_comparison (fun i => (i : ℚ)) [] "Sobel Edge Detection" (2, 2)).2).image_size = (2, 2) ∧
    ((run_comparison (fun i => (i : ℚ)) [] "Sobel Edge Detection" (2, 2)).2).cpu_time_ms = 1000 ∧
    (2, 2) ≠ (IMAGE_HEIGHT, IMAGE_WIDTH) := by
  refine ⟨rfl, rfl, ?_, by decide⟩
  show (run_cpu_benchmark (fun i => (i : ℚ)) 10).1 = 1000
  obtain ⟨h1, -, -⟩ := timed_runs_spec (fun i => (i : ℚ)) 10 ⟨0, 1⟩
  show npMean (timed_runs (fun i => (i : ℚ)) 10 ⟨0, 1⟩).1 = 1000
  rw [h1]
  dsimp only
  norm_num [npMean, List.range_succ]

/-- C3 (amended): only the upload channel validates dimensions: when
`upload_image` receives an image whose shape differs from 480×640 it fails
fast with `ValueError("Image must be 640x480")` before any byte is
transferred. The benchmark's comparison run performs no dimension check
against the timing parameters' declared pixel count: it always runs the
timing loop and appends a result, whatever the image size. -/
theorem C3_upload_validation (img : NdArray)
    (h : (img.height, img.width) ≠ (IMAGE_HEIGHT, IMAGE_WIDTH)) :
    upload_image img = Except.error "Image must be 640x480" ∧
    ∀ (clock : ℕ → ℚ) (results : List BenchmarkResult)
      (operation_name : String) (image_size : ℕ × ℕ),
      (run_comparison clock results operation_name image_size).1 =
        results ++ [(run_comparison clock results operation_name image_size).2] := by
  constructor
  · unfold upload_image
    rw [if_neg h]
  · intro _ _ _ _
    rfl

/-- C3 witness: the amended statement applied to a concrete 2×2 array. -/
theorem C3_upload_validation_witness :
    (((2 : ℕ), (2 : ℕ)) ≠ (IMAGE_HEIGHT, IMAGE_WIDTH)) ∧
    (upload_image ⟨2, 2, fun _ _ => 0⟩ = Except.error "Image must be 640x480" ∧
     ∀ (clock : ℕ → ℚ) (results : List BenchmarkResult)
       (operation_name : String) (image_size : ℕ × ℕ),
       (run_comparison clock results operation_name image_size).1 =
         results ++ [(run_comparison clock results operation_name image_size).2]) :=
  ⟨by decide, C3_upload_validation ⟨2, 2, fun _ _ => 0⟩ (by decide)⟩

/-- C4: for every kernel-timing oracle and every positive iteration count
N, the CPU harness invokes the kernel exactly N+1 times (one untimed
warm-up plus N timed runs), and the reported `cpu_time_ms` is the
arithmetic mean of exactly the N timed durations — the i-th duration being
the difference between the (2i+1)-th and (2i)-th clock readings times
1000; no warm-up duration enters the mean (the warm-up is not timed at
all). -/
theorem C4_cpu_benchmark_protocol (clock : ℕ → ℚ) (iterations : ℕ)
    (h : 0 < iterations) :
    (run_cpu_benchmark clock iterations).2.kernel_calls = iterations + 1 ∧
    (run_cpu_benchmark clock iterations).1 =
      (((List.range iterations).map
        (fun i => (clock (2 * i + 1) - clock (2 * i)) * 1000)).sum) /
        (iterations : ℚ) := by
  obtain ⟨h1, h2, h3⟩ := timed_runs_spec clock iterations ⟨0, 1⟩
  dsimp only at h1 h2 h3
  constructor
  · show (timed_runs clock iterations ⟨0, 1⟩).2.kernel_calls = iterations + 1
    omega
  · show npMean (timed_runs clock iterations ⟨0, 1⟩).1 = _
    rw [h1, npMean]
    simp

/-- C4 witness: with the clock oracle `fun i => i` and N = 2 the kernel is
invoked 3 times and the reported mean is the mean of the two timed
durations. -/
theorem C4_witness :
    0 < 2 ∧
    ((run_cpu_benchmark (fun i => (i : ℚ)) 2).2.kernel_calls = 2 + 1 ∧
     (run_cpu_benchmark (fun i => (i : ℚ)) 2).1 =
       (((List.range 2).map
         (fun i => (((2 * i + 1 : ℕ) : ℚ) - ((2 * i : ℕ) : ℚ)) * 1000)).sum) /
         ((2 : ℕ) : ℚ)) :=
  ⟨by decide, C4_cpu_benchmark_protocol (fun i => (i : ℚ)) 2 (by decide)⟩

/-- C5: a session's result store lists one `BenchmarkResult` per executed
comparison in execution (append) order; the generated report contains
exactly one table row per stored result, in store order, and its aggregate
line is the arithmetic mean of all stored speedups. -/
theorem C5_report_completeness (image_size : ℕ × ℕ)
    (ops : List (String × (ℕ → ℚ))) (results : List BenchmarkResult) :
    run_session image_size ops [] =
      ops.map (fun op => (run_comparison op.2 [] op.1 image_size).2) ∧
    (generate_report results).1 =
      results.map (fun r => ReportRow.mk r.name r.cpu_time_ms r.fpga_time_ms r.speedup) ∧
    (generate_report results).1.length = results.length ∧
    (generate_report results).2 =
      ((results.map (fun r => r.speedup)).sum) / (results.length : ℚ) := by
  have hrows := foldl_append_rows
    (fun r => ReportRow.mk r.name r.cpu_time_ms r.fpga_time_ms r.speedup)
    results []
  refine ⟨?_, ?_, ?_, ?_⟩
  · rw [run_session_eq]
    simp
  · show results.foldl _ [] = _
    rw [hrows]
    simp
  · show (results.foldl _ []).length = _
    rw [hrows]
    simp
  · show npMean (results.map (fun r => r.speedup)) = _
    rw [npMean]
    simp

/-- C6: edge detection applied to a uniform-intensity image (all samples
equal to an 8-bit value V) yields zero at every interior pixel: both the
Gx and the Gy convolution responses vanish on a constant neighborhood, so
the magnitude, the clip and the uint8 cast all produce 0. -/
theorem C6_sobel_constant (h w V : ℕ) (r c : ℤ) (hV : V ≤ 255)
    (hr1 : 1 ≤ r) (hr2 : r + 1 < (h : ℤ)) (hc1 : 1 ≤ c) (hc2 : c + 1 < (w : ℤ)) :
    ndimage_convolve kernel_x ⟨h, w, fun _ _ => (V : ℚ)⟩ r c = 0 ∧
    ndimage_convolve kernel_y ⟨h, w, fun _ _ => (V : ℚ)⟩ r c = 0 ∧
    sobel_edge_detection ⟨h, w, fun _ _ => (V : ℚ)⟩ r c = 0 := by
  have hx : ndimage_convolve kernel_x ⟨h, w, fun _ _ => (V : ℚ)⟩ r c = 0 := by
    simp [ndimage_convolve, sample, kernel_x]
  have hy : ndimage_convolve kernel_y ⟨h, w, fun _ _ => (V : ℚ)⟩ r c = 0 := by
    simp [ndimage_convolve, sample, kernel_y]
  refine ⟨hx, hy, ?_⟩
  simp only [sobel_edge_detection, hx, hy]
  norm_num [np_clip, toUint8_zero]

/-- C6 witness: a constant image of value 7 at the interior pixel (2, 2)
of a 5×5 image. -/
theorem C6_witness :
    (7 : ℕ) ≤ 255 ∧ (1 : ℤ) ≤ 2 ∧ (2 : ℤ) + 1 < ((5 : ℕ) : ℤ) ∧
    (1 : ℤ) ≤ 2 ∧ (2 : ℤ) + 1 < ((5 : ℕ) : ℤ) ∧
    (ndimage_convolve kernel_x ⟨5, 5, fun _ _ => ((7 : ℕ) : ℚ)⟩ 2 2 = 0 ∧
     ndimage_convolve kernel_y ⟨5, 5, fun _ _ => ((7 : ℕ) : ℚ)⟩ 2 2 = 0 ∧
     sobel_edge_detection ⟨5, 5, fun _ _ => ((7 : ℕ) : ℚ)⟩ 2 2 = 0) :=
  ⟨by norm_num, by norm_num, by norm_num, by norm_num, by norm_num,
   C6_sobel_constant 5 5 7 2 2 (by norm_num) (by norm_num) (by norm_num)
     (by norm_num) (by norm_num)⟩

/-- C7: blur applied to a uniform-intensity image of 8-bit value V leaves
every interior pixel equal to V: the kernel weights sum to exactly 1, so
the convolution returns V, and the uint8 cast of V is V. -/
theorem C7_blur_constant (h w V : ℕ) (r c : ℤ) (hV : V ≤ 255)
    (hr1 : 1 ≤ r) (hr2 : r + 1 < (h : ℤ)) (hc1 : 1 ≤ c) (hc2 : c + 1 < (w : ℤ)) :
    ndimage_convolve blur_kernel ⟨h, w, fun _ _ => (V : ℚ)⟩ r c = (V : ℚ) ∧
    gaussian_blur ⟨h, w, fun _ _ => (V : ℚ)⟩ r c = (V : ℤ) := by
  have hconv : ndimage_convolve blur_kernel ⟨h, w, fun _ _ => (V : ℚ)⟩ r c = (V : ℚ) := by
    simp [ndimage_convolve, sample, blur_kernel]
    ring
  refine ⟨hconv, ?_⟩
  show toUint8 (ndimage_convolve blur_kernel ⟨h, w, fun _ _ => (V : ℚ)⟩ r c) = (V : ℤ)
  rw [hconv]
  exact toUint8_natCast V hV

/-- C7 witness: a constant image of value 9 at the interior pixel (1, 2)
of a 4×4 image. -/
theorem C7_witness :
    (9 : ℕ) ≤ 255 ∧ (1 : ℤ) ≤ 1 ∧ (1 : ℤ) + 1 < ((4 : ℕ) : ℤ) ∧
    (1 : ℤ) ≤ 2 ∧ (2 : ℤ) + 1 < ((4 : ℕ) : ℤ) ∧
    (ndimage_convolve blur_kernel ⟨4, 4, fun _ _ => ((9 : ℕ) : ℚ)⟩ 1 2 = ((9 : ℕ) : ℚ) ∧
     gaussian_blur ⟨4, 4, fun _ _ => ((9 : ℕ) : ℚ)⟩ 1 2 = ((9 : ℕ) : ℤ)) :=
  ⟨by norm_num, by norm_num, by norm_num, by norm_num, by norm_num,
   C7_blur_constant 4 4 9 1 2 (by norm_num) (by norm_num) (by norm_num)
     (by norm_num) (by norm_num)⟩

/-- C9: both kernels use one and the same border-extension policy — the
`reflect` (mirror) mode that is `scipy.ndimage.convolve`'s default: index
-1 reads sample 0, index n reads sample n-1, in-range indices read
themselves. Consequently border-pixel behavior is deterministic and
identical for edge detection and blur: the output of either kernel at any
in-range position is fully determined by the in-range pixel data. -/
theorem C9_shared_boundary_policy :
    (∀ n : ℕ, reflectIdx n (-1) = 0) ∧
    (∀ n : ℕ, 1 ≤ n → reflectIdx n (n : ℤ) = (n : ℤ) - 1) ∧
    (∀ (n : ℕ) (i : ℤ), 0 ≤ i → i < (n : ℤ) → reflectIdx n i = i) ∧
    (∀ img₁ img₂ : RasterImage, img₁.height = img₂.height →
      img₁.width = img₂.width →
      (∀ r c : ℤ, 0 ≤ r → r < (img₁.height : ℤ) → 0 ≤ c →
        c < (img₁.width : ℤ) → img₁.px r c = img₂.px r c) →
      ∀ r c : ℤ, 0 ≤ r → r < (img₁.height : ℤ) → 0 ≤ c →
        c < (img₁.width : ℤ) →
        sobel_edge_detection img₁ r c = sobel_edge_detection img₂ r c ∧
        gaussian_blur img₁ r c = gaussian_blur img₂ r c) := by
  refine ⟨?_, ?_, ?_, ?_⟩
  · intro n
    unfold reflectIdx
    norm_num
  · intro n hn
    unfold reflectIdx
    split_ifs <;> omega
  · intro n i h1 h2
    unfold reflectIdx
    split_ifs <;> omega
  · intro img₁ img₂ hh hw hpx r c hr1 hr2 hc1 hc2
    have ex := convolve_congr kernel_x img₁ img₂ hh hw hpx r c hr1 hr2 hc1 hc2
    have ey := convolve_congr kernel_y img₁ img₂ hh hw hpx r c hr1 hr2 hc1 hc2
    have eb := convolve_congr blur_kernel img₁ img₂ hh hw hpx r c hr1 hr2 hc1 hc2
    constructor
    · simp only [sobel_edge_detection, ex, ey]
    · simp only [gaussian_blur, eb]

/-- C9 witness: two 2×2 images agreeing in range but wildly different out
of range produce the same edge-detection and blur outputs at (0, 0). -/
theorem C9_witness :
    sobel_edge_detection ⟨2, 2, fun _ _ => 3⟩ 0 0 =
      sobel_edge_detection
        ⟨2, 2, fun r c => if r < 0 ∨ 2 ≤ r ∨ c < 0 ∨ 2 ≤ c then 99 else 3⟩ 0 0 ∧
    gaussian_blur ⟨2, 2, fun _ _ => 3⟩ 0 0 =
      gaussian_blur
        ⟨2, 2, fun r c => if r < 0 ∨ 2 ≤ r ∨ c < 0 ∨ 2 ≤ c then 99 else 3⟩ 0 0 :=
  C9_shared_boundary_policy.2.2.2 ⟨2, 2, fun _ _ => 3⟩
    ⟨2, 2, fun r c => if r < 0 ∨ 2 ≤ r ∨ c < 0 ∨ 2 ≤ c then 99 else 3⟩ rfl rfl
    (fun r c h1 h2 h3 h4 => by
      dsimp only at h2 h4 ⊢
      rw [if_neg (by omega)])
    0 0 (by norm_num) (show (0 : ℤ) < ((2 : ℕ) : ℤ) by norm_num)
    (by norm_num) (show (0 : ℤ) < ((2 : ℕ) : ℤ) by norm_num)

/-- C10: on any valid uint8 input image, the blur convolution's value at
every output position already lies in [0, 255] (the kernel weights are
nonnegative and sum to 1), so the final uint8 cast — which, unlike edge
detection's, is not preceded by a clip — is plain truncation: it never
wraps, and the output sample is again in [0, 255]. -/
theorem C10_blur_range_safety (img : RasterImage) (himg : IsUint8Image img)
    (r c : ℤ) :
    0 ≤ ndimage_convolve blur_kernel img r c ∧
    ndimage_convolve blur_kernel img r c ≤ 255 ∧
    gaussian_blur img r c = ratTrunc (ndimage_convolve blur_kernel img r c) ∧
    0 ≤ gaussian_blur img r c ∧ gaussian_blur img r c ≤ 255 := by
  have hs : ∀ a b : ℤ, 0 ≤ sample img a b ∧ sample img a b ≤ 255 :=
    fun a b => himg _ _
  obtain ⟨s1a, s1b⟩ := hs (r + 1) (c + 1)
  obtain ⟨s2a, s2b⟩ := hs (r + 1) c
  obtain ⟨s3a, s3b⟩ := hs (r + 1) (c - 1)
  obtain ⟨s4a, s4b⟩ := hs r (c + 1)
  obtain ⟨s5a, s5b⟩ := hs r c
  obtain ⟨s6a, s6b⟩ := hs r (c - 1)
  obtain ⟨s7a, s7b⟩ := hs (r - 1) (c + 1)
  obtain ⟨s8a, s8b⟩ := hs (r - 1) c
  obtain ⟨s9a, s9b⟩ := hs (r - 1) (c - 1)
  have h1 : 0 ≤ ndimage_convolve blur_kernel img r c := by
    rw [blur_convolve_eq]
    linarith
  have h2 : ndimage_convolve blur_kernel img r c ≤ 255 := by
    rw [blur_convolve_eq]
    linarith
  have h3 : gaussian_blur img r c = ratTrunc (ndimage_convolve blur_kernel img r c) := by
    show toUint8 (ndimage_convolve blur_kernel img r c) = _
    exact toUint8_eq_ratTrunc _ h1 h2
  have h4 : ratTrunc (ndimage_convolve blur_kernel img r c) =
      ⌊ndimage_convolve blur_kernel img r c⌋ := ratTrunc_eq_floor _ h1
  refine ⟨h1, h2, h3, ?_, ?_⟩
  · rw [h3, h4]
    exact Int.floor_nonneg.mpr h1
  · rw [h3, h4]
    have h5 : ⌊ndimage_convolve blur_kernel img r c⌋ ≤ ⌊(255 : ℚ)⌋ :=
      Int.floor_le_floor h2
    have h6 : ⌊(255 : ℚ)⌋ = 255 := by norm_num
    omega

/-- C10 witness: the constant-200 uint8 image at pixel (1, 1). -/
theorem C10_witness :
    IsUint8Image ⟨3, 3, fun _ _ => 200⟩ ∧
    (0 ≤ ndimage_convolve blur_kernel ⟨3, 3, fun _ _ => 200⟩ 1 1 ∧
     ndimage_convolve blur_kernel ⟨3, 3, fun _ _ => 200⟩ 1 1 ≤ 255 ∧
     gaussian_blur ⟨3, 3, fun _ _ => 200⟩ 1 1 =
       ratTrunc (ndimage_convolve blur_kernel ⟨3, 3, fun _ _ => 200⟩ 1 1) ∧
     0 ≤ gaussian_blur ⟨3, 3, fun _ _ => 200⟩ 1 1 ∧
     gaussian_blur ⟨3, 3, fun _ _ => 200⟩ 1 1 ≤ 255) :=
  ⟨fun _ _ => ⟨by norm_num, by norm_num⟩,
   C10_blur_range_safety ⟨3, 3, fun _ _ => 200⟩
     (fun _ _ => ⟨by norm_num, by norm_num⟩) 1 1⟩

end FpgaBench
